import Mathlib

/-!
Shallow embedding of src/Chess-Portfolio.py, a Fog-of-War chess variant.

The Python program is a single file with a `ChessVar` class (board, turn,
state) and one class per piece kind carrying a `valid_move` predicate.
The embedding mirrors the dynamic semantics that the claims depend on:

* Python list indexing: a negative index `-n` (with `n ≤ len`) wraps to
  `len - n`; any other out-of-range index raises `IndexError`.  This is
  modelled by `pyIdx` / `pyGet` / `pySet` returning `Except PyErr`.
* Python value comparison between a list and a tuple is always unequal.
  `make_move` passes coordinates as *lists* while `get_board` passes
  *tuples*; the movement predicates rebind `cur_pos` to list literals and
  compare them against the incoming position.  Each predicate therefore
  takes a `tuples : Bool` flag recording the kind of the incoming
  positions, and position comparisons use `posEqOrig` (incoming vs
  incoming, same kind on both sides) or `posEqAfter` (rebound list vs
  incoming).
* Python functions that fall off the end return `None`, which is falsy,
  as is `False`.  Predicate results are `Option Bool` (`none` = Python
  `None`); only `some true` is truthy.
* The `while` loops of the sliding pieces are modelled with a fuel
  parameter (`walkFuel = 32`).  Every call the program can make walks at
  most 17 steps before arriving or leaving the 8×8 board, so the fuel is
  never exhausted there; exhaustion is modelled as the distinct error
  `PyErr.diverge` so it can never be confused with a real result.
-/

inductive Color where
  | white
  | black
deriving DecidableEq, Repr

def Color.flip : Color → Color
  | .white => .black
  | .black => .white

inductive Kind where
  | pawn
  | rook
  | knight
  | bishop
  | queen
  | king
deriving DecidableEq, Repr

/-- The symbol each piece class passes to `ChessPiece.__init__`
(always uppercase; `get_symbol` returns it unchanged). -/
def Kind.symbol : Kind → Char
  | .pawn => 'P'
  | .rook => 'R'
  | .knight => 'N'
  | .bishop => 'B'
  | .queen => 'Q'
  | .king => 'K'

/-- The lowercase form used by `get_board` when rendering a black piece
(`piece._symbol.lower()`). -/
def Kind.symbolLower : Kind → Char
  | .pawn => 'p'
  | .rook => 'r'
  | .knight => 'n'
  | .bishop => 'b'
  | .queen => 'q'
  | .king => 'k'

structure Piece where
  color : Color
  kind : Kind
deriving DecidableEq, Repr

/-- The board `self._board`: a list of 8 rows, each a list of 8 cells. -/
abbrev Board := List (List (Option Piece))

inductive PyErr where
  | indexError
  | valueError
  | diverge
deriving DecidableEq, Repr

/-- Python list index resolution: `0 ≤ i < len` is direct, `-len ≤ i < 0`
wraps to `i + len`, anything else raises `IndexError`. -/
def pyIdx (len : Nat) (i : Int) : Except PyErr Nat :=
  if 0 ≤ i ∧ i < (len : Int) then .ok i.toNat
  else if -(len : Int) ≤ i ∧ i < 0 then .ok (i + len).toNat
  else .error .indexError

/-- Reading `board[r][c]` with Python indexing semantics. -/
def pyGet (board : Board) (r c : Int) : Except PyErr (Option Piece) := do
  let ri ← pyIdx board.length r
  let row := board.getD ri []
  let ci ← pyIdx row.length c
  pure (row.getD ci none)

/-- Writing `board[r][c] = v` with Python indexing semantics. -/
def pySet (board : Board) (r c : Int) (v : Option Piece) :
    Except PyErr Board := do
  let ri ← pyIdx board.length r
  let row := board.getD ri []
  let ci ← pyIdx row.length c
  pure (board.set ri (row.set ci v))

/-- Plain (non-wrapping) cell lookup, used to state properties and for the
bounds-guarded reads inside the sliding loops (the guard `0 ≤ r < 8` makes
direct and Python indexing agree on the 8×8 boards the program builds). -/
def cellZ (board : Board) (r c : Int) : Option Piece :=
  if 0 ≤ r ∧ 0 ≤ c then
    ((board.getD r.toNat []).getD c.toNat none)
  else none

/-- An 8×8 board (every board the program constructs satisfies this). -/
def BoardWF (board : Board) : Prop :=
  board.length = 8 ∧ ∀ row ∈ board, row.length = 8

instance (board : Board) : Decidable (BoardWF board) := by
  unfold BoardWF
  infer_instance

/-- Comparison of the two incoming positions (both lists, or both tuples:
equal exactly when the coordinates agree). -/
def posEqOrig (a b : Int × Int) : Bool :=
  a.1 == b.1 && a.2 == b.2

/-- Comparison of a rebound `cur_pos` (always a list literal) against the
incoming `next_pos`: a Python list never equals a tuple, so when the
incoming positions are tuples this is always false. -/
def posEqAfter (tuples : Bool) (a b : Int × Int) : Bool :=
  !tuples && a.1 == b.1 && a.2 == b.2

inductive WalkRes where
  | retFalse
  | arrived
  | fuelOut
deriving DecidableEq, Repr

/-- The shared `while cur_pos != next_pos` loop of `Rook.valid_move`,
`Bishop.valid_move` and both blocks of `Queen.valid_move`:
step by `(rs, cs)`, rebind `cur_pos` to the stepped list, return `False`
when the stepped square leaves the board or when it is occupied and is not
(by Python comparison) the destination. -/
def walk (tuples : Bool) (board : Board) (next : Int × Int) (rs cs : Int) :
    Nat → Int × Int → Bool → WalkRes
  | 0, cur, orig =>
    if (if orig then posEqOrig cur next else posEqAfter tuples cur next) then
      .arrived
    else .fuelOut
  | f + 1, cur, orig =>
    if (if orig then posEqOrig cur next else posEqAfter tuples cur next) then
      .arrived
    else
      let r := cur.1 + rs
      let c := cur.2 + cs
      if ¬(0 ≤ r ∧ r < 8 ∧ 0 ≤ c ∧ c < 8) then .retFalse
      else if posEqAfter tuples (r, c) next = false ∧ cellZ board r c ≠ none then
        .retFalse
      else walk tuples board next rs cs f (r, c) false

/-- The variant of the loop in `King.valid_move`, with the `moves` counter:
`(cur_pos != next_pos and board[...] is not None) or moves > 1` returns
`False`. -/
def kingWalk (tuples : Bool) (board : Board) (next : Int × Int) (rs cs : Int) :
    Nat → Int × Int → Bool → Nat → WalkRes
  | 0, cur, orig, _ =>
    if (if orig then posEqOrig cur next else posEqAfter tuples cur next) then
      .arrived
    else .fuelOut
  | f + 1, cur, orig, moves =>
    if (if orig then posEqOrig cur next else posEqAfter tuples cur next) then
      .arrived
    else
      let m := moves + 1
      let r := cur.1 + rs
      let c := cur.2 + cs
      if ¬(0 ≤ r ∧ r < 8 ∧ 0 ≤ c ∧ c < 8) then .retFalse
      else if (posEqAfter tuples (r, c) next = false ∧ cellZ board r c ≠ none)
          ∨ m > 1 then
        .retFalse
      else kingWalk tuples board next rs cs f (r, c) false m

def walkFuel : Nat := 32

/-- The common tail of the sliding and knight predicates:
`target_piece = board[next[0]][next[1]]`, then `None` → `True`,
enemy → `True`, otherwise fall through (`fallback` is Python `None` for
Rook/Knight/Queen/King and an explicit `False` for Bishop). -/
def targetEval (board : Board) (color : Color) (next : Int × Int)
    (fallback : Option Bool) : Except PyErr (Option Bool) := do
  let target ← pyGet board next.1 next.2
  match target with
  | none => pure (some true)
  | some p => if p.color ≠ color then pure (some true) else pure fallback

/-- The `row_step` of the straight-line blocks (`0` when the rows agree, else
the sign of the row difference). -/
def stepStraight (a b : Int) : Int :=
  if a = b then 0 else if b > a then 1 else -1

/-- The `row_step`/`col_step` of the diagonal blocks (`1 if next > cur else -1`;
never zero). -/
def stepDiag (a b : Int) : Int :=
  if b > a then 1 else -1

/-- The predicate `Pawn.valid_move`.  The pawn never compares whole positions, so the
list/tuple distinction is invisible to it. -/
def Pawn.valid_move (color : Color) (cur next : Int × Int) (board : Board) :
    Except PyErr (Option Bool) :=
  let direction : Int := if color = .white then -1 else 1
  let startRow : Int := if color = .white then 6 else 1
  let inBounds : Bool :=
    decide (0 ≤ cur.1 ∧ cur.1 < 8 ∧ 0 ≤ cur.2 ∧ cur.2 < 8)
  let diagonalCase : Except PyErr (Option Bool) :=
    if (cur.2 - next.2).natAbs = 1 ∧ next.1 = cur.1 + direction then do
      let target ← pyGet board next.1 next.2
      match target with
      | some p => if p.color ≠ color then pure (some true) else pure (some false)
      | none => pure (some false)
    else pure (some false)
  let doubleCase : Except PyErr (Option Bool) :=
    if cur.2 = next.2 ∧ cur.1 = startRow ∧ next.1 = cur.1 + direction + direction then do
      let mid ← pyGet board (cur.1 + direction) cur.2
      if mid = none then do
        let target ← pyGet board next.1 next.2
        if target = none then
          pure (if inBounds then some true else some false)
        else diagonalCase
      else diagonalCase
    else diagonalCase
  if cur.2 = next.2 ∧ next.1 = cur.1 + direction then do
    let target ← pyGet board next.1 next.2
    if target = none then
      pure (if inBounds then some true else some false)
    else doubleCase
  else doubleCase

/-- The predicate `Rook.valid_move`: reject when both coordinates differ, else slide with
the straight steps; on arrival `None`/enemy → `True`, own piece → fall
through (`None`). -/
def Rook.valid_move (tuples : Bool) (color : Color) (cur next : Int × Int)
    (board : Board) : Except PyErr (Option Bool) :=
  if cur.1 ≠ next.1 ∧ cur.2 ≠ next.2 then pure (some false)
  else
    match walk tuples board next (stepStraight cur.1 next.1)
        (stepStraight cur.2 next.2) walkFuel cur true with
    | .retFalse => pure (some false)
    | .fuelOut => .error .diverge
    | .arrived => targetEval board color next none

/-- The predicate `Bishop.valid_move`: reject when either coordinate agrees, else slide
with the diagonal steps; its tail ends with an explicit `return False`. -/
def Bishop.valid_move (tuples : Bool) (color : Color) (cur next : Int × Int)
    (board : Board) : Except PyErr (Option Bool) :=
  if cur.1 = next.1 ∨ cur.2 = next.2 then pure (some false)
  else
    match walk tuples board next (stepDiag cur.1 next.1)
        (stepDiag cur.2 next.2) walkFuel cur true with
    | .retFalse => pure (some false)
    | .fuelOut => .error .diverge
    | .arrived => targetEval board color next (some false)

/-- The eight L-shape offsets `Knight.valid_move` tests, in source order. -/
def knightOffsets : List (Int × Int) :=
  [(2, 1), (2, -1), (1, 2), (1, -2), (-2, 1), (-2, -1), (-1, 2), (-1, -2)]

/-- The predicate `Knight.valid_move`: each offset test compares a *list* literal against
the incoming `next_pos`, so with tuple inputs all eight tests fail and the
innermost `return False` runs.  The destination read is unguarded. -/
def Knight.valid_move (tuples : Bool) (color : Color) (cur next : Int × Int)
    (board : Board) : Except PyErr (Option Bool) :=
  if knightOffsets.any (fun o =>
      posEqAfter tuples (cur.1 + o.1, cur.2 + o.2) next) then
    targetEval board color next none
  else pure (some false)

/-- The predicate `Queen.valid_move`: the straight block runs when a coordinate agrees
(its fall-through leaves `cur_pos = next_pos`, so the diagonal `if` is then
skipped and the function returns `None`); otherwise the diagonal block
runs, identical to the Bishop's but ending in fall-through (`None`). -/
def Queen.valid_move (tuples : Bool) (color : Color) (cur next : Int × Int)
    (board : Board) : Except PyErr (Option Bool) :=
  if cur.1 = next.1 ∨ cur.2 = next.2 then
    match walk tuples board next (stepStraight cur.1 next.1)
        (stepStraight cur.2 next.2) walkFuel cur true with
    | .retFalse => pure (some false)
    | .fuelOut => .error .diverge
    | .arrived => targetEval board color next none
  else
    match walk tuples board next (stepDiag cur.1 next.1)
        (stepDiag cur.2 next.2) walkFuel cur true with
    | .retFalse => pure (some false)
    | .fuelOut => .error .diverge
    | .arrived => targetEval board color next none

/-- The predicate `King.valid_move`: the Queen's structure with the `moves` counter.
As in the Queen, when the straight block falls through (own-colored
target) the mutated `cur_pos` equals `next_pos` and the diagonal `if` is
skipped, returning `None`. -/
def King.valid_move (tuples : Bool) (color : Color) (cur next : Int × Int)
    (board : Board) : Except PyErr (Option Bool) :=
  if cur.1 = next.1 ∨ cur.2 = next.2 then
    match kingWalk tuples board next (stepStraight cur.1 next.1)
        (stepStraight cur.2 next.2) walkFuel cur true 0 with
    | .retFalse => pure (some false)
    | .fuelOut => .error .diverge
    | .arrived => targetEval board color next none
  else
    match kingWalk tuples board next (stepDiag cur.1 next.1)
        (stepDiag cur.2 next.2) walkFuel cur true 0 with
    | .retFalse => pure (some false)
    | .fuelOut => .error .diverge
    | .arrived => targetEval board color next none

/-- Dynamic dispatch `piece.valid_move(cur_pos, next_pos, board)`. -/
def validMove (k : Kind) (tuples : Bool) (color : Color)
    (cur next : Int × Int) (board : Board) : Except PyErr (Option Bool) :=
  match k with
  | .pawn => Pawn.valid_move color cur next board
  | .rook => Rook.valid_move tuples color cur next board
  | .knight => Knight.valid_move tuples color cur next board
  | .bishop => Bishop.valid_move tuples color cur next board
  | .queen => Queen.valid_move tuples color cur next board
  | .king => King.valid_move tuples color cur next board

/-- Python truthiness of a predicate result (`None` and `False` are falsy). -/
def truthy : Option Bool → Bool
  | some true => true
  | _ => false

/-- Rendering perspectives (`get_board`'s string argument). -/
inductive Persp where
  | white
  | black
  | audience
deriving DecidableEq, Repr

/-- The test `piece._color == perspective` (string comparison; `'audience'` matches
no piece color). -/
def colorMatches (c : Color) (p : Persp) : Bool :=
  match c, p with
  | .white, .white => true
  | .black, .black => true
  | _, _ => false

def Persp.ofColor : Color → Persp
  | .white => .white
  | .black => .black

/-- The `self._state` strings: `'UNFINISHED'`, `'WHITE WINS'`, `'BLACK WINS'`. -/
inductive GState where
  | unfinished
  | whiteWins
  | blackWins
deriving DecidableEq, Repr

structure GameSt where
  board : Board
  state : GState
  turn : Color
deriving DecidableEq, Repr

/-- The collection of `(next_row, next_col)` targets `get_board` puts into
`capturable_positions`: some piece of the perspective's color has a truthy
`valid_move` (called with coordinate *tuples*) onto a square holding an
enemy piece.  Errors cannot occur on the 8×8 boards the program builds
(the scan's coordinates are all in range and tuple-mode calls never reach
an unguarded read), but they are threaded faithfully. -/
def capturablePositions (board : Board) (p : Persp) :
    Except PyErr (List (Int × Int)) :=
  (List.range 8).foldlM (fun acc r =>
    (List.range 8).foldlM (fun acc c =>
      match cellZ board r c with
      | none => pure acc
      | some piece =>
        if colorMatches piece.color p then
          (List.range 8).foldlM (fun acc nr =>
            (List.range 8).foldlM (fun acc nc => do
              let v ← validMove piece.kind true piece.color
                ((r : Int), (c : Int)) ((nr : Int), (nc : Int)) board
              if truthy v then
                match cellZ board nr nc with
                | some target =>
                  if target.color ≠ piece.color then
                    pure (acc ++ [((nr : Int), (nc : Int))])
                  else pure acc
                | none => pure acc
              else pure acc) acc) acc
        else pure acc) acc) []

/-- The symbol `get_board` renders for a visible piece
(uppercase for white, lowercase for black). -/
def renderSymbol (piece : Piece) : Char :=
  match piece.color with
  | .white => piece.kind.symbol
  | .black => piece.kind.symbolLower

/-- The grid `get_board` returns: own pieces and capturable enemies show
their symbol, other enemy squares show `'*'`, empty squares `' '`;
the audience perspective shows everything. -/
def renderGrid (board : Board) (p : Persp) : Except PyErr (List (List Char)) := do
  let caps ← capturablePositions board p
  pure ((List.range 8).map (fun r =>
    (List.range 8).map (fun c =>
      match cellZ board r c with
      | none => ' '
      | some piece =>
        match p with
        | .audience => renderSymbol piece
        | _ =>
          if colorMatches piece.color p ∨ ((r : Int), (c : Int)) ∈ caps then
            renderSymbol piece
          else '*')))

/-- The method `ChessVar.get_board` as a state transformer: it computes the grid and
performs no assignment to any field of `self`, so the state component of
the result is the input state. -/
def get_board (s : GameSt) (p : Persp) :
    (Except PyErr (List (List Char))) × GameSt :=
  (renderGrid s.board p, s)

/-- The method `ChessVar.alg_to_list`: the file letter is checked against the
dictionary; the rank character is fed to `int` unchecked, so a non-digit
rank raises `ValueError`, a missing second character raises `IndexError`,
and rank digits outside 1–8 produce out-of-range row indices. -/
def alg_to_list (pos : String) : Except PyErr (Option (Int × Int)) :=
  match pos.data with
  | [] => .error .indexError
  | c0 :: rest =>
    let files := [('a', (0 : Int)), ('b', 1), ('c', 2), ('d', 3),
                  ('e', 4), ('f', 5), ('g', 6), ('h', 7)]
    match files.lookup c0 with
    | none => .ok none
    | some col =>
      match rest with
      | [] => .error .indexError
      | c1 :: _ =>
        if c1.isDigit then
          .ok (some ((8 : Int) - ((c1.toNat : Int) - 48), col))
        else .error .valueError

/-- The body of `make_move` after both positions parsed to lists
(`current` and `next_spot` truthy). -/
def makeMoveCore (s : GameSt) (cur next : Int × Int) :
    Except PyErr (Option Bool × GameSt) := do
  let piece? ← pyGet s.board cur.1 cur.2
  match piece? with
  | none => pure (some false, s)
  | some piece =>
    if piece.color = s.turn then do
      let v ← validMove piece.kind false piece.color cur next s.board
      if truthy v then do
        let target ← pyGet s.board next.1 next.2
        if (∃ p, target = some p ∧ p.kind.symbol = 'k') then do
          let b1 ← pySet s.board next.1 next.2 (some piece)
          let b2 ← pySet b1 cur.1 cur.2 none
          pure (some true, { board := b2, state := .whiteWins, turn := s.turn })
        else if (∃ p, target = some p ∧ p.kind.symbol = 'K') then do
          let b1 ← pySet s.board next.1 next.2 (some piece)
          let b2 ← pySet b1 cur.1 cur.2 none
          pure (some true, { board := b2, state := .blackWins, turn := s.turn })
        else do
          let b1 ← pySet s.board next.1 next.2 (some piece)
          let b2 ← pySet b1 cur.1 cur.2 none
          let s1 : GameSt := { s with board := b2 }
          let rendered := get_board s1 (Persp.ofColor s.turn)
          let _ ← rendered.1
          pure (some true, { rendered.2 with turn := s.turn.flip })
      else pure (some false, s)
    else pure (some false, s)

/-- The method `ChessVar.make_move`.  The result is the returned value (`none` models
Python's implicit `None` when a position fails to parse) together with the
state after the call; exceptions escaping `make_move` are `.error`. -/
def make_move (s : GameSt) (curPos nextPos : String) :
    Except PyErr (Option Bool × GameSt) := do
  let current ← alg_to_list curPos
  let nextSpot ← alg_to_list nextPos
  match current, nextSpot with
  | some cur, some next => makeMoveCore s cur next
  | _, _ => pure (none, s)

/-- The back rank, in board order (`initialize_pieces`). -/
def backRank (c : Color) : List (Option Piece) :=
  [some ⟨c, .rook⟩, some ⟨c, .knight⟩, some ⟨c, .bishop⟩, some ⟨c, .queen⟩,
   some ⟨c, .king⟩, some ⟨c, .bishop⟩, some ⟨c, .knight⟩, some ⟨c, .rook⟩]

def pawnRank (c : Color) : List (Option Piece) :=
  List.replicate 8 (some ⟨c, .pawn⟩)

def emptyRank : List (Option Piece) := List.replicate 8 none

/-- The board `initialize_pieces` builds: black on rows 0–1, white on
rows 6–7. -/
def initialBoard : Board :=
  [backRank .black, pawnRank .black, emptyRank, emptyRank,
   emptyRank, emptyRank, pawnRank .white, backRank .white]

/-- The constructor `ChessVar.__init__`: empty board filled by `initialize_pieces`,
state `'UNFINISHED'`, turn `'white'`. -/
def initialState : GameSt :=
  { board := initialBoard, state := .unfinished, turn := .white }

/-- Scaffolding for building concrete positions: apply `make_move` and keep
the resulting state (keeping the old state if the call raised; the games
used below never raise, as the theorems about them show). -/
def stepMove (s : GameSt) (a b : String) : GameSt :=
  match make_move s a b with
  | .ok (_, s1) => s1
  | .error _ => s

def playMoves (s : GameSt) : List (String × String) → GameSt
  | [] => s
  | (a, b) :: rest => playMoves (stepMove s a b) rest

/-!
Concrete positions used by the theorems below.

`stateBeforeCapture` is reached from the start by
e2e3, d7d6, Bf1–b5, h7h6: White to move, the bishop on b5 = (3,1) has a
clear diagonal to the black king on e8 = (0,4).
-/

def stateBeforeCapture : GameSt :=
  playMoves initialState [("e2", "e3"), ("d7", "d6"), ("f1", "b5"), ("h7", "h6")]

/-- The terminal state after White's bishop captures the black king. -/
def stateAfterCapture : GameSt := stepMove stateBeforeCapture "b5" "e8"

/-- The state after a further move is played in the terminal position. -/
def stateAfterTerminalMove : GameSt := stepMove stateAfterCapture "a2" "a3"

/-- After 1. Ng1–f3 e7–e5, the white knight on f3 = (5,5) attacks the
black pawn on e5 = (3,4), and no other white piece does. -/
def knightFogState : GameSt :=
  playMoves initialState [("g1", "f3"), ("e7", "e5")]

/-- A square strictly between two distinct coordinates on the same row or
the same column. -/
def strictBetweenStraight (a b q : Int × Int) : Prop :=
  (a.1 = b.1 ∧ q.1 = a.1 ∧ (a.2 < q.2 ∧ q.2 < b.2 ∨ b.2 < q.2 ∧ q.2 < a.2)) ∨
  (a.2 = b.2 ∧ q.2 = a.2 ∧ (a.1 < q.1 ∧ q.1 < b.1 ∨ b.1 < q.1 ∧ q.1 < a.1))

/-- A square strictly between two coordinates that lie on a common
diagonal (equal absolute row and column differences on both sides). -/
def strictBetweenDiag (a b q : Int × Int) : Prop :=
  (b.1 - a.1).natAbs = (b.2 - a.2).natAbs ∧
  (q.1 - a.1).natAbs = (q.2 - a.2).natAbs ∧
  (b.1 - q.1).natAbs = (b.2 - q.2).natAbs ∧
  (a.1 < q.1 ∧ q.1 < b.1 ∨ b.1 < q.1 ∧ q.1 < a.1)

/-- The observable part of a `make_move` result that the outcome field
cannot influence: the returned value, the board and the turn. -/
def stripSt (x : Except PyErr (Option Bool × GameSt)) :
    Except PyErr (Option Bool × Board × Color) :=
  x.map (fun pr => (pr.1, pr.2.board, pr.2.turn))

/-!  Lemmas and claim theorems.  -/

-- symbolic theorems under development
/-- C10: `get_board` computes the rendered grid and assigns to no field of
the game state: for every state and perspective the state component of the
result is the input state itself. -/
theorem get_board_leaves_state_unchanged (s : GameSt) (p : Persp) :
    (get_board s p).2 = s := rfl

lemma posEqAfter_false_eq (a b : Int × Int) :
    posEqAfter false a b = posEqOrig a b := by
  simp [posEqAfter, posEqOrig]

/-- With a non-truthy fallback, two `targetEval`s differ at most in their
non-truthy results. -/
lemma targetEval_true_iff (board : Board) (col : Color) (next : Int × Int)
    (fb1 fb2 : Option Bool) (h1 : fb1 ≠ some true) (h2 : fb2 ≠ some true) :
    (targetEval board col next fb1 = .ok (some true) ↔
     targetEval board col next fb2 = .ok (some true)) := by
  unfold targetEval
  cases hp : pyGet board next.1 next.2 with
  | error e => simp [hp, bind, Except.bind]
  | ok t =>
    cases t with
    | none => simp [hp, bind, Except.bind]
    | some p =>
      by_cases hcol : p.color = col
      · simp [hp, bind, Except.bind, hcol, pure, Except.pure, h1, h2]
      · simp [hp, bind, Except.bind, hcol, pure, Except.pure]

/-- C9: with list-typed coordinates (as `make_move` supplies them) the
Queen's predicate is truthy exactly when the Rook's or the Bishop's is,
for the same color, coordinates and board. -/
theorem queen_truthy_iff_rook_or_bishop (col : Color) (board : Board)
    (cur next : Int × Int) :
    validMove Kind.queen false col cur next board = .ok (some true) ↔
      (validMove Kind.rook false col cur next board = .ok (some true) ∨
       validMove Kind.bishop false col cur next board = .ok (some true)) := by
  simp only [validMove]
  unfold Queen.valid_move Rook.valid_move Bishop.valid_move
  by_cases h : cur.1 = next.1 ∨ cur.2 = next.2
  · have hr : ¬(cur.1 ≠ next.1 ∧ cur.2 ≠ next.2) := by tauto
    rw [if_pos h, if_neg hr, if_pos h]
    simp [pure, Except.pure]
  · have h2 : cur.1 ≠ next.1 ∧ cur.2 ≠ next.2 := by tauto
    rw [if_neg h, if_pos h2, if_neg h]
    cases hw : walk false board next (stepDiag cur.1 next.1)
        (stepDiag cur.2 next.2) walkFuel cur true with
    | retFalse => simp [pure, Except.pure]
    | fuelOut => simp [pure, Except.pure]
    | arrived =>
      have := targetEval_true_iff board col next none (some false)
        (by simp) (by simp)
      simp only [this]
      simp [pure, Except.pure]

/-- A cell that actually holds a piece is read identically by Python
indexing and by the plain lookup. -/
lemma pyGet_of_cell_some (board : Board) (r c : Int) (p : Piece)
    (h : cellZ board r c = some p) : pyGet board r c = .ok (some p) := by
  unfold cellZ at h
  by_cases hg : 0 ≤ r ∧ 0 ≤ c
  · rw [if_pos hg] at h
    have hrlen : r.toNat < board.length := by
      by_contra hlen
      push_neg at hlen
      rw [List.getD_eq_default _ _ hlen] at h
      simp at h
    have hclen : c.toNat < (board.getD r.toNat []).length := by
      by_contra hlen
      push_neg at hlen
      rw [List.getD_eq_default _ _ hlen] at h
      exact Option.noConfusion h
    unfold pyGet pyIdx
    rw [if_pos ⟨hg.1, by omega⟩]
    simp only [bind, Except.bind]
    rw [if_pos ⟨hg.2, by omega⟩]
    simp only [pure, Except.pure, h]
  · rw [if_neg hg] at h
    exact Option.noConfusion h

/-- The tail `targetEval` is never truthy when the destination holds a piece of the
moving color. -/
lemma targetEval_own_not_true (board : Board) (col : Color)
    (next : Int × Int) (p : Piece) (fb : Option Bool)
    (hp : cellZ board next.1 next.2 = some p) (hc : p.color = col)
    (hfb : fb ≠ some true) :
    targetEval board col next fb ≠ .ok (some true) := by
  unfold targetEval
  rw [pyGet_of_cell_some board next.1 next.2 p hp]
  simp [bind, Except.bind, hc, pure, Except.pure, hfb]


lemma exbind_ok {α β : Type} (a : α) (f : α → Except PyErr β) :
    (Except.ok a >>= f) = f a := rfl

lemma exbind_err {α β : Type} (e : PyErr) (f : α → Except PyErr β) :
    ((Except.error e : Except PyErr α) >>= f) = Except.error e := rfl

lemma bind_ne_ok_true {α : Type} (x : Except PyErr α)
    (f : α → Except PyErr (Option Bool))
    (hf : ∀ v, f v ≠ .ok (some true)) : (x >>= f) ≠ .ok (some true) := by
  cases x with
  | error e => simp [exbind_err]
  | ok v => simpa [exbind_ok] using hf v

set_option maxHeartbeats 1000000 in
/-- C6: no movement predicate is ever truthy when the destination square
holds a piece of the moving color (for either position representation and
any piece kind; with `cur = next` this covers the zero-length move onto
the piece's own square). -/
theorem valid_move_never_truthy_onto_own_color (k : Kind) (tuples : Bool)
    (col : Color) (board : Board) (cur next : Int × Int) (p : Piece)
    (hcur : 0 ≤ cur.1 ∧ cur.1 < 8 ∧ 0 ≤ cur.2 ∧ cur.2 < 8)
    (hnext : 0 ≤ next.1 ∧ next.1 < 8 ∧ 0 ≤ next.2 ∧ next.2 < 8)
    (hp : cellZ board next.1 next.2 = some p) (hc : p.color = col) :
    validMove k tuples col cur next board ≠ .ok (some true) := by
  have hnx := pyGet_of_cell_some board next.1 next.2 p hp
  cases k with
  | pawn =>
    simp only [validMove, Pawn.valid_move, hnx, exbind_ok, hc]
    split_ifs <;> solve
      | simp [pure, Except.pure]
      | simp_all [pure, Except.pure]
      | (apply bind_ne_ok_true; intro v; split_ifs <;> simp_all [pure, Except.pure])
  | rook =>
    simp only [validMove, Rook.valid_move]
    split_ifs
    · simp [pure, Except.pure]
    · cases walk tuples board next (stepStraight cur.1 next.1)
          (stepStraight cur.2 next.2) walkFuel cur true with
      | retFalse => simp [pure, Except.pure]
      | fuelOut => simp
      | arrived => exact targetEval_own_not_true board col next p none hp hc (by simp)
  | knight =>
    simp only [validMove, Knight.valid_move]
    split_ifs
    · exact targetEval_own_not_true board col next p none hp hc (by simp)
    · simp [pure, Except.pure]
  | bishop =>
    simp only [validMove, Bishop.valid_move]
    split_ifs
    · simp [pure, Except.pure]
    · cases walk tuples board next (stepDiag cur.1 next.1)
          (stepDiag cur.2 next.2) walkFuel cur true with
      | retFalse => simp [pure, Except.pure]
      | fuelOut => simp
      | arrived =>
        exact targetEval_own_not_true board col next p (some false) hp hc (by simp)
  | queen =>
    simp only [validMove, Queen.valid_move]
    split_ifs
    · cases walk tuples board next (stepStraight cur.1 next.1)
          (stepStraight cur.2 next.2) walkFuel cur true with
      | retFalse => simp [pure, Except.pure]
      | fuelOut => simp
      | arrived => exact targetEval_own_not_true board col next p none hp hc (by simp)
    · cases walk tuples board next (stepDiag cur.1 next.1)
          (stepDiag cur.2 next.2) walkFuel cur true with
      | retFalse => simp [pure, Except.pure]
      | fuelOut => simp
      | arrived => exact targetEval_own_not_true board col next p none hp hc (by simp)
  | king =>
    simp only [validMove, King.valid_move]
    split_ifs
    · cases kingWalk tuples board next (stepStraight cur.1 next.1)
          (stepStraight cur.2 next.2) walkFuel cur true 0 with
      | retFalse => simp [pure, Except.pure]
      | fuelOut => simp
      | arrived => exact targetEval_own_not_true board col next p none hp hc (by simp)
    · cases kingWalk tuples board next (stepDiag cur.1 next.1)
          (stepDiag cur.2 next.2) walkFuel cur true 0 with
      | retFalse => simp [pure, Except.pure]
      | fuelOut => simp
      | arrived => exact targetEval_own_not_true board col next p none hp hc (by simp)

/-- On an 8×8 board, an in-range Python read agrees with the plain lookup. -/
lemma pyGet_eq_cell_of_wf (board : Board) (hwf : BoardWF board) (r c : Int)
    (hr : 0 ≤ r ∧ r < 8) (hc : 0 ≤ c ∧ c < 8) :
    pyGet board r c = .ok (cellZ board r c) := by
  obtain ⟨hlen, hrows⟩ := hwf
  have hrow : board.getD r.toNat [] ∈ board := by
    rw [List.getD_eq_getElem _ _ (by omega)]
    exact List.getElem_mem _
  have hrowlen : (board.getD r.toNat []).length = 8 := hrows _ hrow
  unfold pyGet pyIdx cellZ
  rw [hlen]
  rw [if_pos ⟨hr.1, by omega⟩]
  simp only [exbind_ok]
  rw [hrowlen]
  rw [if_pos ⟨hc.1, by omega⟩]
  simp only [exbind_ok, if_pos (And.intro hr.1 hc.1), pure, Except.pure]

/-- C8: on an 8×8 board, a pawn's two-square forward move (same column,
rank changed by twice its direction) is truthy exactly when the pawn
stands on its side's starting rank (row 6 for white, row 1 for black) and
both the intermediate and the destination squares are empty. -/
theorem pawn_double_step_iff (col : Color) (board : Board) (r c d sr : Int)
    (hwf : BoardWF board)
    (hd : d = if col = Color.white then -1 else 1)
    (hsr : sr = if col = Color.white then 6 else 1)
    (hr : 0 ≤ r ∧ r < 8) (hc : 0 ≤ c ∧ c < 8) :
    Pawn.valid_move col (r, c) (r + d + d, c) board = .ok (some true) ↔
      (r = sr ∧ cellZ board (r + d) c = none ∧
        cellZ board (r + d + d) c = none) := by
  have hib : decide (0 ≤ r ∧ r < 8 ∧ 0 ≤ c ∧ c < 8) = true := by
    simp [hr.1, hr.2, hc.1, hc.2]
  have hbw : ¬(Color.black = Color.white) := by decide
  by_cases hrsr : r = sr
  · have hb1 : 0 ≤ r + d ∧ r + d < 8 := by cases col <;> simp [hd] at * <;> omega
    have hb2 : 0 ≤ r + d + d ∧ r + d + d < 8 := by
      cases col <;> simp [hd] at * <;> omega
    have h1 := pyGet_eq_cell_of_wf board hwf (r + d) c hb1 hc
    have h2 := pyGet_eq_cell_of_wf board hwf (r + d + d) c hb2 hc
    cases col with
    | white =>
      have hd2 : d = -1 := by simpa using hd
      have hsr2 : sr = 6 := by simpa using hsr
      subst hd2 hsr2
      simp only [Pawn.valid_move, hib, h1, h2, exbind_ok, if_true, true_and,
        and_true, reduceIte]
      rw [if_neg (by omega : ¬(r + -1 + -1 = r + -1))]
      rw [if_pos hrsr]
      cases hm : cellZ board (r + -1) c with
      | none =>
        rw [if_pos (rfl : (none : Option Piece) = none)]
        cases hn : cellZ board (r + -1 + -1) c with
        | none => rw [if_pos (rfl : (none : Option Piece) = none)]; simp [hrsr, pure, Except.pure]
        | some q =>
          rw [if_neg (by simp : ¬(some q = none))]
          rw [if_neg (by omega : ¬((c - c).natAbs = 1 ∧ r + -1 + -1 = r + -1))]
          simp [pure, Except.pure]
      | some q =>
        rw [if_neg (by simp : ¬(some q = none))]
        rw [if_neg (by omega : ¬((c - c).natAbs = 1 ∧ r + -1 + -1 = r + -1))]
        simp [pure, Except.pure]
    | black =>
      have hd2 : d = 1 := by simpa using hd
      have hsr2 : sr = 1 := by simpa using hsr
      subst hd2 hsr2
      simp only [Pawn.valid_move, hib, h1, h2, exbind_ok, hbw, if_true,
        if_false, true_and, and_true, reduceIte]
      rw [if_neg (by omega : ¬(r + 1 + 1 = r + 1))]
      rw [if_pos hrsr]
      cases hm : cellZ board (r + 1) c with
      | none =>
        rw [if_pos (rfl : (none : Option Piece) = none)]
        cases hn : cellZ board (r + 1 + 1) c with
        | none => rw [if_pos (rfl : (none : Option Piece) = none)]; simp [hrsr, pure, Except.pure]
        | some q =>
          rw [if_neg (by simp : ¬(some q = none))]
          rw [if_neg (by omega : ¬((c - c).natAbs = 1 ∧ r + 1 + 1 = r + 1))]
          simp [pure, Except.pure]
      | some q =>
        rw [if_neg (by simp : ¬(some q = none))]
        rw [if_neg (by omega : ¬((c - c).natAbs = 1 ∧ r + 1 + 1 = r + 1))]
        simp [pure, Except.pure]
  · have hfalse : ¬(r = sr ∧ cellZ board (r + d) c = none ∧
        cellZ board (r + d + d) c = none) := fun hco => hrsr hco.1
    cases col with
    | white =>
      have hd2 : d = -1 := by simpa using hd
      have hsr2 : sr = 6 := by simpa using hsr
      subst hd2 hsr2
      simp only [Pawn.valid_move, hib, hfalse, iff_false, if_true, true_and,
        and_true, reduceIte]
      rw [if_neg (by omega : ¬(r + -1 + -1 = r + -1))]
      rw [if_neg hrsr]
      rw [if_neg (by omega : ¬((c - c).natAbs = 1 ∧ r + -1 + -1 = r + -1))]
      simp [pure, Except.pure]
    | black =>
      have hd2 : d = 1 := by simpa using hd
      have hsr2 : sr = 1 := by simpa using hsr
      subst hd2 hsr2
      simp only [Pawn.valid_move, hib, hfalse, iff_false, hbw, if_true,
        if_false, true_and, and_true, reduceIte]
      rw [if_neg (by omega : ¬(r + 1 + 1 = r + 1))]
      rw [if_neg hrsr]
      rw [if_neg (by omega : ¬((c - c).natAbs = 1 ∧ r + 1 + 1 = r + 1))]
      simp [pure, Except.pure]

/-- C5: when both position strings parse to on-board squares and the game
is not over, a move rejected because the start square is empty, or holds a
piece of the wrong color, or fails the piece's movement predicate, returns
`False` and leaves the whole game state (board, turn and outcome) exactly
as it was. -/
theorem rejected_move_leaves_state_unchanged (s : GameSt)
    (pstr qstr : String) (cur next : Int × Int)
    (hstate : s.state = GState.unfinished)
    (hp : alg_to_list pstr = .ok (some cur))
    (hq : alg_to_list qstr = .ok (some next))
    (hcur : 0 ≤ cur.1 ∧ cur.1 < 8 ∧ 0 ≤ cur.2 ∧ cur.2 < 8)
    (hnext : 0 ≤ next.1 ∧ next.1 < 8 ∧ 0 ≤ next.2 ∧ next.2 < 8)
    (hrej : pyGet s.board cur.1 cur.2 = .ok none ∨
      (∃ pc, pyGet s.board cur.1 cur.2 = .ok (some pc) ∧
        (pc.color ≠ s.turn ∨
         ∃ v, validMove pc.kind false pc.color cur next s.board = .ok v ∧
           truthy v = false))) :
    make_move s pstr qstr = .ok (some false, s) := by
  unfold make_move
  simp only [hp, hq, exbind_ok]
  unfold makeMoveCore
  rcases hrej with hempty | ⟨pc, hpc, hrest⟩
  · simp [hempty, exbind_ok, pure, Except.pure]
  · simp only [hpc, exbind_ok]
    rcases hrest with hcol | ⟨v, hv, hfv⟩
    · rw [if_neg hcol]
      simp [pure, Except.pure]
    · by_cases hcm : pc.color = s.turn
      · rw [if_pos hcm]
        simp only [hv, exbind_ok, hfv]
        simp [pure, Except.pure]
      · rw [if_neg hcm]
        simp [pure, Except.pure]

lemma stepStraight_self {a b : Int} (h : a = b) : stepStraight a b = 0 := by
  simp [stepStraight, h]

lemma stepStraight_up {a b : Int} (h : a < b) : stepStraight a b = 1 := by
  unfold stepStraight
  rw [if_neg (by omega), if_pos h]

lemma stepStraight_down {a b : Int} (h : b < a) : stepStraight a b = -1 := by
  unfold stepStraight
  rw [if_neg (by omega), if_neg (by omega)]

lemma stepDiag_up {a b : Int} (h : a < b) : stepDiag a b = 1 := by
  unfold stepDiag
  rw [if_pos h]

lemma stepDiag_down {a b : Int} (h : ¬a < b) : stepDiag a b = -1 := by
  unfold stepDiag
  rw [if_neg (by omega)]

/-- A strictly-between square on a straight line is reached from the start
after `j` of the `d` unit steps the sliding loop takes. -/
lemma straight_decomp (a b q : Int × Int) (h : strictBetweenStraight a b q) :
    ∃ j d : Nat, 0 < j ∧ j < d ∧
      b.1 = a.1 + d * stepStraight a.1 b.1 ∧
      b.2 = a.2 + d * stepStraight a.2 b.2 ∧
      q.1 = a.1 + j * stepStraight a.1 b.1 ∧
      q.2 = a.2 + j * stepStraight a.2 b.2 ∧
      ¬(stepStraight a.1 b.1 = 0 ∧ stepStraight a.2 b.2 = 0) ∧
      ((d : Int) = (b.1 - a.1).natAbs ∨ (d : Int) = (b.2 - a.2).natAbs) := by
  rcases h with ⟨h1, hq1, hcol | hcol⟩ | ⟨h2, hq2, hrow | hrow⟩
  · refine ⟨(q.2 - a.2).toNat, (b.2 - a.2).toNat, by omega, by omega, ?_⟩
    rw [stepStraight_self h1, stepStraight_up (by omega : a.2 < b.2)]
    refine ⟨by omega, by omega, by omega, by omega, by simp, by omega⟩
  · refine ⟨(a.2 - q.2).toNat, (a.2 - b.2).toNat, by omega, by omega, ?_⟩
    rw [stepStraight_self h1, stepStraight_down (by omega : b.2 < a.2)]
    refine ⟨by omega, by omega, by omega, by omega, by simp, by omega⟩
  · refine ⟨(q.1 - a.1).toNat, (b.1 - a.1).toNat, by omega, by omega, ?_⟩
    rw [stepStraight_self h2, stepStraight_up (by omega : a.1 < b.1)]
    refine ⟨by omega, by omega, by omega, by omega, by simp, by omega⟩
  · refine ⟨(a.1 - q.1).toNat, (a.1 - b.1).toNat, by omega, by omega, ?_⟩
    rw [stepStraight_self h2, stepStraight_down (by omega : b.1 < a.1)]
    refine ⟨by omega, by omega, by omega, by omega, by simp, by omega⟩

/-- A strictly-between square on a diagonal is reached from the start
after `j` of the `d` unit steps the diagonal sliding loop takes. -/
lemma diag_decomp (a b q : Int × Int) (h : strictBetweenDiag a b q) :
    ∃ j d : Nat, 0 < j ∧ j < d ∧
      b.1 = a.1 + d * stepDiag a.1 b.1 ∧
      b.2 = a.2 + d * stepDiag a.2 b.2 ∧
      q.1 = a.1 + j * stepDiag a.1 b.1 ∧
      q.2 = a.2 + j * stepDiag a.2 b.2 ∧
      (d : Int) = (b.1 - a.1).natAbs := by
  obtain ⟨hab, haq, hqb, hrow⟩ := h
  rcases hrow with hrow | hrow
  · refine ⟨(q.1 - a.1).toNat, (b.1 - a.1).toNat, by omega, by omega, ?_⟩
    rw [stepDiag_up (by omega : a.1 < b.1)]
    by_cases hcdir : a.2 < b.2
    · rw [stepDiag_up hcdir]
      refine ⟨by omega, by omega, by omega, by omega, by omega⟩
    · rw [stepDiag_down hcdir]
      refine ⟨by omega, by omega, by omega, by omega, by omega⟩
  · refine ⟨(a.1 - q.1).toNat, (a.1 - b.1).toNat, by omega, by omega, ?_⟩
    rw [stepDiag_down (by omega : ¬a.1 < b.1)]
    by_cases hcdir : a.2 < b.2
    · rw [stepDiag_up hcdir]
      refine ⟨by omega, by omega, by omega, by omega, by omega⟩
    · rw [stepDiag_down hcdir]
      refine ⟨by omega, by omega, by omega, by omega, by omega⟩

lemma posEqOrig_false_of_ne (a b : Int × Int)
    (h : ¬(a.1 = b.1 ∧ a.2 = b.2)) : posEqOrig a b = false := by
  unfold posEqOrig
  by_cases h1 : a.1 = b.1
  · by_cases h2 : a.2 = b.2
    · exact absurd ⟨h1, h2⟩ h
    · simp [h1, h2]
  · simp [h1]

/-- When an occupied square sits `j` unit steps along the ray and the
destination sits `d > j` steps along it, the list-mode sliding loop
returns `False` (it hits the square, or leaves the board first). -/
lemma walk_blocked (board : Board) (rs cs : Int) (hs : ¬(rs = 0 ∧ cs = 0)) :
    ∀ (fuel : Nat) (cur next : Int × Int) (o : Bool) (j d : Nat),
      0 < j → j < d → j ≤ fuel →
      next.1 = cur.1 + d * rs → next.2 = cur.2 + d * cs →
      cellZ board (cur.1 + j * rs) (cur.2 + j * cs) ≠ none →
      walk false board next rs cs fuel cur o = .retFalse := by
  intro fuel
  induction fuel with
  | zero =>
    intro cur next o j d hj hjd hjf hn1 hn2 hblock
    omega
  | succ f ih =>
    intro cur next o j d hj hjd hjf hn1 hn2 hblock
    have hdpos : (1 : Int) < d := by omega
    have hsplit : rs = 0 ∨ cs = 0 ∨ (rs ≠ 0 ∧ cs ≠ 0) := by tauto
    have hcurne : ¬(cur.1 = next.1 ∧ cur.2 = next.2) := by
      rintro ⟨e1, e2⟩
      rw [hn1] at e1
      rw [hn2] at e2
      have h1 : (d : Int) * rs = 0 := by linarith
      have h2 : (d : Int) * cs = 0 := by linarith
      refine hs ⟨?_, ?_⟩
      · rcases mul_eq_zero.mp h1 with h | h
        · exact absurd h (by omega)
        · exact h
      · rcases mul_eq_zero.mp h2 with h | h
        · exact absurd h (by omega)
        · exact h
    have hbo : posEqOrig cur next = false := posEqOrig_false_of_ne _ _ hcurne
    have hcond : (if o then posEqOrig cur next else posEqAfter false cur next)
        = false := by
      cases o <;> simp [posEqAfter_false_eq, hbo]
    simp only [walk, hcond, Bool.false_eq_true, if_false]
    by_cases hbnd : 0 ≤ cur.1 + rs ∧ cur.1 + rs < 8 ∧ 0 ≤ cur.2 + cs ∧
        cur.2 + cs < 8
    · rw [if_neg (not_not_intro hbnd)]
      have hstepne : ¬((cur.1 + rs, cur.2 + cs).1 = next.1 ∧
          (cur.1 + rs, cur.2 + cs).2 = next.2) := by
        rintro ⟨e1, e2⟩
        simp only at e1 e2
        rw [hn1] at e1
        rw [hn2] at e2
        have h1 : ((d : Int) - 1) * rs = 0 := by linarith [e1]
        have h2 : ((d : Int) - 1) * cs = 0 := by linarith [e2]
        refine hs ⟨?_, ?_⟩
        · rcases mul_eq_zero.mp h1 with h | h
          · exact absurd h (by omega)
          · exact h
        · rcases mul_eq_zero.mp h2 with h | h
          · exact absurd h (by omega)
          · exact h
      have hafter : posEqAfter false (cur.1 + rs, cur.2 + cs) next = false := by
        rw [posEqAfter_false_eq]
        exact posEqOrig_false_of_ne _ _ hstepne
      rcases Nat.lt_or_ge 1 j with hj2 | hj1
      · -- j ≥ 2 : either the stepped square is already occupied, or recurse
        by_cases hocc : posEqAfter false (cur.1 + rs, cur.2 + cs) next = false ∧
            cellZ board (cur.1 + rs) (cur.2 + cs) ≠ none
        · rw [if_pos hocc]
        · rw [if_neg hocc]
          apply ih (cur.1 + rs, cur.2 + cs) next false (j - 1) (d - 1)
            (by omega) (by omega) (by omega)
          · rw [hn1]
            push_cast [Nat.cast_sub (by omega : 1 ≤ d)]
            ring
          · rw [hn2]
            push_cast [Nat.cast_sub (by omega : 1 ≤ d)]
            ring
          · have harith1 : (cur.1 + rs) + ((j - 1 : Nat) : Int) * rs =
                cur.1 + (j : Int) * rs := by
              push_cast [Nat.cast_sub (by omega : 1 ≤ j)]
              ring
            have harith2 : (cur.2 + cs) + ((j - 1 : Nat) : Int) * cs =
                cur.2 + (j : Int) * cs := by
              push_cast [Nat.cast_sub (by omega : 1 ≤ j)]
              ring
            rw [harith1, harith2]
            exact hblock
      · -- j = 1 : the stepped square itself is the occupied one
        have hj1e : j = 1 := by omega
        subst hj1e
        have hocc : posEqAfter false (cur.1 + rs, cur.2 + cs) next = false ∧
            cellZ board (cur.1 + rs) (cur.2 + cs) ≠ none := by
          refine ⟨hafter, ?_⟩
          have : cur.1 + (1 : Nat) * rs = cur.1 + rs := by push_cast; ring
          have h2 : cur.2 + (1 : Nat) * cs = cur.2 + cs := by push_cast; ring
          rw [this, h2] at hblock
          exact hblock
        rw [if_pos hocc]
    · rw [if_pos hbnd]

set_option maxHeartbeats 800000 in
/-- C7: for Rook, Bishop and Queen with list-typed coordinates (as
`make_move` supplies them), an occupied square strictly between two
distinct collinear on-board coordinates (straight or diagonal) makes the
predicate return `False`, whatever the occupant's color. -/
theorem sliding_move_blocked_by_between_piece (k : Kind) (col : Color)
    (board : Board) (cur next sq : Int × Int) (occ : Piece)
    (hk : k = Kind.rook ∨ k = Kind.bishop ∨ k = Kind.queen)
    (hcur : 0 ≤ cur.1 ∧ cur.1 < 8 ∧ 0 ≤ cur.2 ∧ cur.2 < 8)
    (hnext : 0 ≤ next.1 ∧ next.1 < 8 ∧ 0 ≤ next.2 ∧ next.2 < 8)
    (hbet : strictBetweenStraight cur next sq ∨ strictBetweenDiag cur next sq)
    (hocc : cellZ board sq.1 sq.2 = some occ) :
    validMove k false col cur next board = .ok (some false) := by
  rcases hbet with hbet | hbet
  · obtain ⟨j, d, hj, hjd, hb1, hb2, hs1, hs2, hsne, hdb⟩ :=
      straight_decomp cur next sq hbet
    have hdle : (d : Int) ≤ 7 := by
      rcases hdb with hdb | hdb <;> omega
    have hjf : j ≤ walkFuel := by
      have : walkFuel = 32 := rfl
      omega
    have hblock : cellZ board (cur.1 + j * stepStraight cur.1 next.1)
        (cur.2 + j * stepStraight cur.2 next.2) ≠ none := by
      rw [← hs1, ← hs2, hocc]
      simp
    have hw := walk_blocked board (stepStraight cur.1 next.1)
      (stepStraight cur.2 next.2) hsne walkFuel cur next true j d hj hjd hjf
      hb1 hb2 hblock
    have hstraight : cur.1 = next.1 ∨ cur.2 = next.2 := by
      rcases hbet with h | h
      · exact Or.inl h.1
      · exact Or.inr h.1
    rcases hk with hk | hk | hk <;> subst hk
    · simp only [validMove, Rook.valid_move]
      rw [if_neg (by tauto : ¬(cur.1 ≠ next.1 ∧ cur.2 ≠ next.2))]
      rw [hw]
      rfl
    · simp only [validMove, Bishop.valid_move]
      rw [if_pos hstraight]
      rfl
    · simp only [validMove, Queen.valid_move]
      rw [if_pos hstraight, hw]
      rfl
  · obtain ⟨j, d, hj, hjd, hb1, hb2, hs1, hs2, hdb⟩ := diag_decomp cur next sq hbet
    have hdiffs : cur.1 ≠ next.1 ∧ cur.2 ≠ next.2 := by
      obtain ⟨hab, _, _, hrow⟩ := hbet
      constructor
      · omega
      · intro he
        rw [he] at hab
        simp at hab
        omega
    have hdle : (d : Int) ≤ 7 := by omega
    have hjf : j ≤ walkFuel := by
      have : walkFuel = 32 := rfl
      omega
    have hsne : ¬(stepDiag cur.1 next.1 = 0 ∧ stepDiag cur.2 next.2 = 0) := by
      rintro ⟨h1, _⟩
      by_cases hdir : cur.1 < next.1
      · rw [stepDiag_up hdir] at h1
        exact one_ne_zero h1
      · rw [stepDiag_down hdir] at h1
        norm_num at h1
    have hblock : cellZ board (cur.1 + j * stepDiag cur.1 next.1)
        (cur.2 + j * stepDiag cur.2 next.2) ≠ none := by
      rw [← hs1, ← hs2, hocc]
      simp
    have hw := walk_blocked board (stepDiag cur.1 next.1)
      (stepDiag cur.2 next.2) hsne walkFuel cur next true j d hj hjd hjf
      hb1 hb2 hblock
    rcases hk with hk | hk | hk <;> subst hk
    · simp only [validMove, Rook.valid_move]
      rw [if_pos hdiffs]
      rfl
    · simp only [validMove, Bishop.valid_move]
      rw [if_neg (by tauto : ¬(cur.1 = next.1 ∨ cur.2 = next.2)), hw]
      rfl
    · simp only [validMove, Queen.valid_move]
      rw [if_neg (by tauto : ¬(cur.1 = next.1 ∨ cur.2 = next.2)), hw]
      rfl

lemma makeMoveCore_ignores_state (b : Board) (st σ : GState) (t : Color)
    (cur next : Int × Int) :
    stripSt (makeMoveCore ⟨b, σ, t⟩ cur next) =
      stripSt (makeMoveCore ⟨b, st, t⟩ cur next) := by
  unfold makeMoveCore
  dsimp only
  cases hg : pyGet b cur.1 cur.2 with
  | error e => rfl
  | ok piece? =>
    simp only [hg, exbind_ok]
    cases piece? with
    | none => rfl
    | some piece =>
      dsimp only
      by_cases hcm : piece.color = t
      · rw [if_pos hcm, if_pos hcm]
        cases hv : validMove piece.kind false piece.color cur next b with
        | error e => simp only [hv, exbind_err]
        | ok v =>
          simp only [hv, exbind_ok]
          by_cases htr : truthy v = true
          · rw [if_pos htr, if_pos htr]
            cases ht : pyGet b next.1 next.2 with
            | error e => simp only [ht, exbind_err]
            | ok target =>
              simp only [ht, exbind_ok]
              by_cases hk1 : ∃ pp, target = some pp ∧ pp.kind.symbol = 'k'
              · rw [if_pos hk1, if_pos hk1]
              · rw [if_neg hk1, if_neg hk1]
                by_cases hk2 : ∃ pp, target = some pp ∧ pp.kind.symbol = 'K'
                · rw [if_pos hk2, if_pos hk2]
                · rw [if_neg hk2, if_neg hk2]
                  cases h1 : pySet b next.1 next.2 (some piece) with
                  | error e => simp only [h1, exbind_err]
                  | ok b1 =>
                    simp only [h1, exbind_ok]
                    cases h2 : pySet b1 cur.1 cur.2 none with
                    | error e => simp only [h2, exbind_err]
                    | ok b2 =>
                      simp only [h2, exbind_ok, get_board]
                      cases hr : renderGrid b2 (Persp.ofColor t) with
                      | error e => rfl
                      | ok g => rfl
          · rw [if_neg htr, if_neg htr]
            rfl
      · rw [if_neg hcm, if_neg hcm]
        rfl

/-- C3 (amended): `make_move` never consults the outcome field — its
returned value and its effect on the board and the turn are identical
whatever the outcome is, so a move meeting the piece/turn/legality tests
is accepted even after the game has been decided. -/
theorem make_move_ignores_outcome (s : GameSt) (σ : GState) (p q : String) :
    stripSt (make_move { s with state := σ } p q) = stripSt (make_move s p q) := by
  cases s with
  | mk b st t =>
    unfold make_move
    dsimp only
    cases ha : alg_to_list p with
    | error e => rfl
    | ok cur? =>
      simp only [ha, exbind_ok]
      cases hb : alg_to_list q with
      | error e => rfl
      | ok next? =>
        simp only [hb, exbind_ok]
        cases cur? with
        | none => cases next? <;> rfl
        | some cur =>
          cases next? with
          | none => rfl
          | some next => exact makeMoveCore_ignores_state b st σ t cur next

/-- C1: in the reachable position `stateBeforeCapture` it is White's turn
and e8 holds the black king, yet the accepted capture b5→e8 sets the state
to `'BLACK WINS'` (and does not flip the turn): `make_move` compares
`get_symbol()` against lowercase `'k'` for its white-wins branch, but
symbols are stored uppercase, so every king capture falls into the
`== 'K'` branch and awards the game to Black. -/
theorem white_king_capture_yields_black_wins :
    stateBeforeCapture.state = GState.unfinished ∧
    stateBeforeCapture.turn = Color.white ∧
    cellZ stateBeforeCapture.board 0 4 = some ⟨Color.black, Kind.king⟩ ∧
    make_move stateBeforeCapture "b5" "e8" =
      .ok (some true, stateAfterCapture) ∧
    stateAfterCapture.state = GState.blackWins ∧
    stateAfterCapture.turn = Color.white := by
  refine ⟨rfl, rfl, by decide, rfl, rfl, rfl⟩

/-- C3 counterexample: in the terminal state `stateAfterCapture`
(outcome `'BLACK WINS'`), the move a2→a3 is accepted and mutates both the
board and the turn — `make_move` never consults `self._state`. -/
theorem move_accepted_after_terminal_state :
    stateAfterCapture.state = GState.blackWins ∧
    make_move stateAfterCapture "a2" "a3" =
      .ok (some true, stateAfterTerminalMove) ∧
    stateAfterTerminalMove.board ≠ stateAfterCapture.board ∧
    stateAfterTerminalMove.turn = Color.black := by
  refine ⟨rfl, rfl, by decide, rfl⟩

/-- C4: `alg_to_list` never validates the rank digit, so
`make_move("e0", "e4")` on the freshly initialized game computes row index
`8 - 0 = 8` and raises `IndexError` at `self._board[current[0]]` instead
of surfacing a rejection. -/
theorem make_move_rank_zero_raises :
    make_move initialState "e0" "e4" = .error PyErr.indexError := rfl

/-- C2: the white knight's capture onto e5 is legal — `make_move`, which
passes coordinate *lists*, accepts f3×e5 — yet the white-perspective
render obscures e5 with `'*'`: `get_board` passes coordinate *tuples*,
and `Knight.valid_move` (like every non-pawn predicate) compares them
against list literals, which in Python is always unequal, so the knight
contributes nothing to `capturable_positions`. -/
theorem knight_capture_invisible_in_fog :
    knightFogState.turn = Color.white ∧
    cellZ knightFogState.board 3 4 = some ⟨Color.black, Kind.pawn⟩ ∧
    cellZ knightFogState.board 5 5 = some ⟨Color.white, Kind.knight⟩ ∧
    (make_move knightFogState "f3" "e5").map (fun p => p.1) = .ok (some true) ∧
    validMove Kind.knight false Color.white (5, 5) (3, 4)
      knightFogState.board = .ok (some true) ∧
    validMove Kind.knight true Color.white (5, 5) (3, 4)
      knightFogState.board = .ok (some false) ∧
    (renderGrid knightFogState.board Persp.white).map
      (fun g => (g.getD 3 []).getD 4 ' ') = .ok '*' := by
  refine ⟨rfl, by decide, by decide, rfl, rfl, rfl, rfl⟩

/-- Witness for C5: from the initial position the request e5→e6 starts on
the empty square (3,4); the move is rejected with `False` and the state
comes back exactly unchanged. -/
theorem rejected_move_leaves_state_unchanged_witness :
    (initialState.state = GState.unfinished ∧
     alg_to_list "e5" = .ok (some ((3 : Int), (4 : Int))) ∧
     alg_to_list "e6" = .ok (some ((2 : Int), (4 : Int))) ∧
     pyGet initialState.board 3 4 = .ok none) ∧
    make_move initialState "e5" "e6" = .ok (some false, initialState) :=
  ⟨⟨rfl, rfl, rfl, rfl⟩,
   rejected_move_leaves_state_unchanged initialState "e5" "e6" (3, 4) (2, 4)
     rfl rfl rfl (by decide) (by decide) (Or.inl rfl)⟩

/-- Witness for C6: on the initial board the white rook on (7,0) is never
truthy onto (7,1), which holds the white knight. -/
theorem valid_move_never_truthy_onto_own_color_witness :
    cellZ initialState.board 7 1 = some ⟨Color.white, Kind.knight⟩ ∧
    validMove Kind.rook false Color.white (7, 0) (7, 1) initialState.board ≠
      .ok (some true) :=
  ⟨rfl, valid_move_never_truthy_onto_own_color Kind.rook false Color.white
    initialState.board (7, 0) (7, 1) ⟨Color.white, Kind.knight⟩
    (by decide) (by decide) rfl rfl⟩

/-- Witness for C7: on the initial board the white knight on (7,1) sits
strictly between the rook on (7,0) and (7,3), so the rook move is
rejected with `False`. -/
theorem sliding_move_blocked_by_between_piece_witness :
    (strictBetweenStraight (7, 0) (7, 3) (7, 1) ∧
     cellZ initialState.board 7 1 = some ⟨Color.white, Kind.knight⟩) ∧
    validMove Kind.rook false Color.white (7, 0) (7, 3) initialState.board =
      .ok (some false) :=
  ⟨⟨by unfold strictBetweenStraight; decide, rfl⟩,
   sliding_move_blocked_by_between_piece Kind.rook Color.white
     initialState.board (7, 0) (7, 3) (7, 1) ⟨Color.white, Kind.knight⟩
     (Or.inl rfl) (by decide) (by decide)
     (Or.inl (by unfold strictBetweenStraight; decide)) rfl⟩

/-- Witness for C8: the white pawn on e2 = (6,4) stands on its starting
rank with (5,4) and (4,4) empty, and the double step is indeed truthy. -/
theorem pawn_double_step_iff_witness :
    (BoardWF initialState.board ∧
     cellZ initialState.board 5 4 = none ∧
     cellZ initialState.board 4 4 = none) ∧
    (Pawn.valid_move Color.white (6, 4) (6 + -1 + -1, 4) initialState.board =
        .ok (some true) ↔
      ((6 : Int) = 6 ∧ cellZ initialState.board (6 + -1) 4 = none ∧
        cellZ initialState.board (6 + -1 + -1) 4 = none)) :=
  ⟨⟨by decide, rfl, rfl⟩,
   pawn_double_step_iff Color.white initialState.board 6 4 (-1) 6 (by decide)
     rfl rfl (by decide) (by decide)⟩
